import Mathlib

/-!
Shallow embedding of the color-palette extractor (src/src/lib.rs).

Conventions of the embedding:

* Machine integers are modelled as naturals with an explicit reduction
  where overflow or narrowing matters: the u32 channel accumulators in
  recalculate_centroids reduce modulo 2^32 at every addition, the
  `as u8` narrowing of a cluster index or of an averaged channel reduces
  modulo 256, and the u32 product width*height*4 in
  extract_palette_from_image_data reduces modulo 2^32 (on the wasm32
  target, usize is 32 bits wide, so the subsequent `as usize` cast is the
  identity).

* Floating-point values are modelled as rationals.  The radicand
  dr^2+dg^2+db^2 of Rgb::difference is computed exactly by the source's
  f32 arithmetic whenever the channel values are bytes (every intermediate
  is an integer below 2^24), so Rgb.difference below embeds that radicand,
  i.e. the squared Euclidean distance, exactly; the final square root is a
  strictly monotone map, so every comparison of two distances in
  get_closest_centroid orders identically in the squared embedding, and
  the f32::MAX sentinel becomes its square.  The convergence test of the
  loop driver adds distances before comparing, where the square root does
  not commute; that test only decides how early the (spec-modelled) driver
  stops, which no property below depends on.

* Fallible functions return Except String, mirroring Result<_, JsValue>.
-/

namespace Palette

/-- Internal sample type of the source (struct Rgb): one pixel reduced to its
three channel values.  The channels are u8 in the source; values actually read
from a pixel buffer are bytes. -/
structure Rgb where
  r : ℕ
  g : ℕ
  b : ℕ
deriving DecidableEq

/-- Squared Euclidean distance between two samples, embedding the radicand of
Rgb::difference; the source returns the square root of this value (see the
header comment on why the squared form is the faithful executable embedding). -/
def Rgb.difference (c1 c2 : Rgb) : ℚ :=
  ((c1.r : ℚ) - (c2.r : ℚ)) ^ 2 + ((c1.g : ℚ) - (c2.g : ℚ)) ^ 2 +
    ((c1.b : ℚ) - (c2.b : ℚ)) ^ 2

/-- Sentinel starting value of min_distance in get_closest_centroid: the source
starts from f32::MAX = (2^24-1)*2^104 and compares square roots, so the
squared-distance embedding starts from its square. -/
def minDistInit : ℚ := ((2 ^ 24 - 1) * 2 ^ 104) ^ 2

/-- Inner loop of get_closest_centroid for one sample: walk the centroids with a
running index, keeping the first index whose distance is strictly below the
minimum seen so far. -/
def closestLoop (color : Rgb) : List Rgb → ℕ → ℕ × ℚ → ℕ × ℚ
  | [], _, acc => acc
  | c :: rest, i, acc =>
    let d := Rgb.difference color c
    if d < acc.2 then closestLoop color rest (i + 1) (i, d)
    else closestLoop color rest (i + 1) acc

/-- Index of the closest centroid for one sample, with the running minimum it
attained (closest_index starts at 0, min_distance at f32::MAX). -/
def closestIndexAux (color : Rgb) (centroids : List Rgb) : ℕ × ℚ :=
  closestLoop color centroids 0 (0, minDistInit)

/-- Calculate::get_closest_centroid: for every sample record the index of the
first centroid attaining the minimum distance; the index is pushed as a u8
(hence the reduction modulo 256). -/
def get_closest_centroid (data centroids : List Rgb) : List ℕ :=
  data.map (fun color => (closestIndexAux color centroids).1 % 256)

/-- Accumulator of the per-centroid channel sums in recalculate_centroids:
sum_r, sum_g, sum_b and count, all u32 in the source. -/
structure ChannelSums where
  sr : ℕ
  sg : ℕ
  sb : ℕ
  count : ℕ
deriving DecidableEq

/-- Channel sums and population of centroid idx: one pass over
indices.iter().zip(data), accumulating in u32 arithmetic (every addition
reduces modulo 2^32, as the source's u32 adds wrap in release builds). -/
def sumAssigned (data : List Rgb) (indices : List ℕ) (idx : ℕ) : ChannelSums :=
  (indices.zip data).foldl
    (fun acc p =>
      if p.1 == idx then
        ⟨(acc.sr + p.2.r) % 2 ^ 32, (acc.sg + p.2.g) % 2 ^ 32,
         (acc.sb + p.2.b) % 2 ^ 32, (acc.count + 1) % 2 ^ 32⟩
      else acc)
    ⟨0, 0, 0, 0⟩

/-- Calculate::recalculate_centroids: every centroid with a non-empty cluster
becomes the truncated integer average of its assigned samples (u32 division,
then `as u8`, hence the reduction modulo 256); a centroid with an empty cluster
is returned unchanged.  The rng argument of the source is unused there and
omitted. -/
def recalculate_centroids (data centroids : List Rgb) (indices : List ℕ) :
    List Rgb :=
  centroids.enum.map (fun p =>
    let s := sumAssigned data indices p.1
    if 0 < s.count then
      ⟨s.sr / s.count % 256, s.sg / s.count % 256, s.sb / s.count % 256⟩
    else p.2)

/-- Calculate::check_loop: total movement between the new and the old centroid
sequence (sum over zipped pairs of Rgb.difference). -/
def check_loop (centroids old_centroids : List Rgb) : ℚ :=
  (centroids.zip old_centroids).foldl (fun acc p => acc + Rgb.difference p.1 p.2) 0

/-- Modelled from the spec: the seedable deterministic pseudo-random source used
to initialize centroids lives in the third-party rand crate, not in this
repository; the spec only requires a reproducible generator with explicit
seeding, so a concrete linear congruential generator stands in for it. -/
def rngNext (s : ℕ) : ℕ :=
  (s * 6364136223846793005 + 1442695040888963407) % 2 ^ 64

/-- Calculate::create_random: one uniformly random sample, each channel drawn
independently from 0..=255 (the draw itself is spec-modelled, see rngNext);
returns the sample and the advanced generator state. -/
def create_random (s : ℕ) : Rgb × ℕ :=
  let s1 := rngNext s
  let s2 := rngNext s1
  let s3 := rngNext s2
  (⟨s1 / 2 ^ 32 % 256, s2 / 2 ^ 32 % 256, s3 / 2 ^ 32 % 256⟩, s3)

/-- Modelled from the spec: initialization step 1 of the clustering loop
(spec 4.2) generates k centroids by repeated create_random draws. -/
def initCentroids : ℕ → ℕ → List Rgb × ℕ
  | 0, s => ([], s)
  | n + 1, s =>
    let p := create_random s
    let rest := initCentroids n p.2
    (p.1 :: rest.1, rest.2)

/-- Result of one clustering run: final centroids plus final assignments. -/
structure Kmeans where
  centroids : List Rgb
  indices : List ℕ
deriving DecidableEq

/-- Modelled from the spec: the assign/recompute/convergence-check iteration of
get_kmeans (spec 4.2 steps 2-4) — the driver itself lives in the third-party
kmeans_colors crate, not in this repository.  Each round assigns every sample
to its closest centroid, recomputes the centroids, and stops when the total
movement falls below the convergence threshold or the iteration budget is
spent. -/
def kmeansLoop (data : List Rgb) (converge : ℚ) : ℕ → List Rgb → List Rgb
  | 0, cents => cents
  | n + 1, cents =>
    let indices := get_closest_centroid data cents
    let newCents := recalculate_centroids data cents indices
    if check_loop newCents cents < converge then newCents
    else kmeansLoop data converge n newCents

/-- Modelled from the spec: get_kmeans (spec 4.2) — random initialization from
the seed, the iterated loop, and a final assignment pass against the final
centroids so that the returned assignments are consistent with the returned
centroids (spec 4.2 step 5). -/
def get_kmeans (k max_iter : ℕ) (converge : ℚ) (data : List Rgb) (seed : ℕ) :
    Kmeans :=
  let cents0 := (initCentroids k seed).1
  let finalCents := kmeansLoop data converge max_iter cents0
  { centroids := finalCents, indices := get_closest_centroid data finalCents }

/-- Public color triple (struct Color). -/
structure Color where
  r : ℕ
  g : ℕ
  b : ℕ
deriving DecidableEq

/-- Palette result: the extracted colors with their population percentages
(struct PaletteResult; the percentages are f32 in the source, rationals
here). -/
structure PaletteResult where
  colors : List Color
  percentages : List ℚ
deriving DecidableEq

/-- PaletteResult::get_color: self.colors.get(index).copied(). -/
def PaletteResult.get_color (p : PaletteResult) (index : ℕ) : Option Color :=
  p.colors[index]?

/-- PaletteResult::get_percentage: self.percentages.get(index).copied(). -/
def PaletteResult.get_percentage (p : PaletteResult) (index : ℕ) : Option ℚ :=
  p.percentages[index]?

/-- PaletteResult::length: self.colors.len(). -/
def PaletteResult.length (p : PaletteResult) : ℕ :=
  p.colors.length

/-- RGBA decoding step of extract_palette_from_pixels:
pixels.chunks_exact(4).map(|rgba| Rgb::new(rgba[0], rgba[1], rgba[2])) — every
4 consecutive bytes yield one sample from the first three bytes, the alpha byte
is skipped, and a trailing chunk shorter than 4 is dropped by chunks_exact. -/
def rgbPixels : List ℕ → List Rgb
  | r :: g :: b :: _ :: rest => ⟨r, g, b⟩ :: rgbPixels rest
  | _ => []

/-- Extractor configuration (struct PaletteExtractor). -/
structure PaletteExtractor where
  max_iter : ℕ
  converge : ℚ
  verbose : Bool
deriving DecidableEq

/-- PaletteExtractor::new: max_iter 20, converge 5.0, verbose false. -/
def PaletteExtractor.new : PaletteExtractor :=
  { max_iter := 20, converge := 5, verbose := false }

/-- PaletteExtractor::extract_palette_from_pixels: validate the buffer shape
and k, decode RGBA to samples, reject an empty sample sequence, run the
clustering, and derive colors plus percentages.  The per-index counts are
accumulated exactly as the source's fold over a vec![0; k] (the source uses the
i32 vector elements only as counters; on the wasm32 target a buffer holds
fewer than 2^30 pixels, so those counters cannot wrap and are embedded as
naturals).  The verbose branch only logs and has no behavioral effect. -/
def PaletteExtractor.extract_palette_from_pixels (e : PaletteExtractor)
    (pixels : List ℕ) (k : ℕ) : Except String PaletteResult :=
  if pixels.length % 4 ≠ 0 then
    .error "Pixel data must be RGBA format (length divisible by 4)"
  else if k = 0 then
    .error "Number of colors (k) must be greater than 0"
  else
    let rgb_pixels := rgbPixels pixels
    if rgb_pixels.isEmpty then
      .error "No valid pixels found"
    else
      let km := get_kmeans k e.max_iter e.converge rgb_pixels 0
      let colors : List Color := km.centroids.map (fun c => ⟨c.r, c.g, c.b⟩)
      let total : ℚ := (rgb_pixels.length : ℚ)
      let counts : List ℕ := km.indices.foldl
        (fun acc ci => if ci < k then acc.set ci (acc.getD ci 0 + 1) else acc)
        (List.replicate k 0)
      let percentages : List ℚ :=
        counts.map (fun (cnt : ℕ) => (cnt : ℚ) / total * 100)
      .ok { colors := colors, percentages := percentages }

/-- PaletteExtractor::extract_palette_from_image_data: width and height are
u32, the expected length width*height*4 is computed in u32 arithmetic (wrapping
at every multiplication) and compared with the buffer length; on a match the
call delegates to extract_palette_from_pixels. -/
def PaletteExtractor.extract_palette_from_image_data (e : PaletteExtractor)
    (image_data : List ℕ) (width height : ℕ) (k : ℕ) :
    Except String PaletteResult :=
  let expected_len := width * height % 2 ^ 32 * 4 % 2 ^ 32
  if image_data.length ≠ expected_len then
    .error "Image data length does not match expected length for the declared RGBA dimensions"
  else
    e.extract_palette_from_pixels image_data k

/-- PaletteExtractor::extract_dominant_color: the k = 1 pipeline, returning the
single color. -/
def PaletteExtractor.extract_dominant_color (e : PaletteExtractor)
    (pixels : List ℕ) : Except String Color :=
  match e.extract_palette_from_pixels pixels 1 with
  | .error msg => .error msg
  | .ok result =>
    match result.get_color 0 with
    | some c => .ok c
    | none => .error "Failed to extract dominant color"

/-- Relative luminance weight of a color: 0.2126*r + 0.7152*g + 0.0722*b on
channels normalized to [0,1].  The decimal literals are embedded as exact
rationals (the f32 literals of the source are those decimals rounded to f32;
the claims below only concern ordering by this weight, which the model keeps
by computing the same linear form exactly). -/
def luminance (c : Color) : ℚ :=
  2126 / 10000 * ((c.r : ℚ) / 255) + 7152 / 10000 * ((c.g : ℚ) / 255) +
    722 / 10000 * ((c.b : ℚ) / 255)

/-- sort_colors_by_luminance: pair every color with its luminance, sort the
pairs ascending by the luminance component (the source uses the stable slice
sort with partial comparison on the f32 key, total on the NaN-free keys
produced by luminance; the embedding uses the stable merge sort of the
library), then drop the keys. -/
def sort_colors_by_luminance (colors : List Color) : List Color :=
  ((colors.map (fun c => (c, luminance c))).mergeSort
    (fun a b => decide (a.2 ≤ b.2))).map Prod.fst

/-- Squared Euclidean distance between two public colors, embedding the
radicand of color_distance_rgb; the source returns its square root (same
embedding note as Rgb.difference). -/
def color_distance_rgb (c1 c2 : Color) : ℚ :=
  ((c1.r : ℚ) - (c2.r : ℚ)) ^ 2 + ((c1.g : ℚ) - (c2.g : ℚ)) ^ 2 +
    ((c1.b : ℚ) - (c2.b : ℚ)) ^ 2

/-- Loop body of remove_similar_colors, which scans the colors in order and
keeps one exactly when its distance to every already kept color is at least
the threshold.  The
source compares the square-rooted distance with an f32 threshold t; for t > 0
that comparison is equivalent to comparing the squared distance with t^2, and
for t ≤ 0 it never holds, exactly as the squared comparison with a
threshold ≤ 0 never holds, so quantifying over the rational threshold below
covers every behavior of the source.  The loop body is dedupStep: keep the
incoming color exactly when no already kept color is strictly within the
threshold. -/
def dedupStep (threshold : ℚ) (result : List Color) (color : Color) : List Color :=
  if result.any (fun e => decide (color_distance_rgb color e < threshold)) then
    result
  else result ++ [color]

/-- remove_similar_colors is the fold of dedupStep over the input, starting
from the empty kept list (see dedupStep for the threshold convention). -/
def remove_similar_colors (colors : List Color) (threshold : ℚ) : List Color :=
  colors.foldl (dedupStep threshold) []

/-- Entries of an index/sample pairing that are assigned to centroid i,
projected to the samples. -/
def assignedOf (l : List (ℕ × Rgb)) (i : ℕ) : List Rgb :=
  (l.filter (fun p => p.1 == i)).map Prod.snd

/-- Samples currently assigned to centroid i, in input order: the sub-sequence
of data selected by the zipped assignment indices (the vocabulary of spec 4.2
step 3, used to state what recalculate_centroids averages). -/
def assignedSamples (data : List Rgb) (indices : List ℕ) (i : ℕ) : List Rgb :=
  assignedOf (indices.zip data) i

/-! ### Helper lemmas -/

theorem closestLoop_fst_lt (color : Rgb) (l : List Rgb) :
    ∀ (i : ℕ) (acc : ℕ × ℚ) (n : ℕ), acc.1 < n → i + l.length ≤ n →
      (closestLoop color l i acc).1 < n := by
  induction l with
  | nil => intro i acc n hacc _; simpa [closestLoop] using hacc
  | cons c rest ih =>
    intro i acc n hacc hlen
    simp only [closestLoop]
    split
    · exact ih (i + 1) _ n (by simp at hlen; omega) (by simp at hlen ⊢; omega)
    · exact ih (i + 1) _ n hacc (by simp at hlen ⊢; omega)

theorem closestIndexAux_fst_lt (color : Rgb) (centroids : List Rgb)
    (h : centroids ≠ []) : (closestIndexAux color centroids).1 < centroids.length := by
  have hlen : 0 < centroids.length := List.length_pos.2 h
  exact closestLoop_fst_lt color centroids 0 (0, minDistInit) centroids.length hlen
    (by omega)

theorem get_closest_centroid_mem_lt (data centroids : List Rgb)
    (hk : 1 ≤ centroids.length) :
    ∀ v ∈ get_closest_centroid data centroids, v < centroids.length := by
  intro v hv
  simp only [get_closest_centroid, List.mem_map] at hv
  obtain ⟨color, _, rfl⟩ := hv
  have h1 : (closestIndexAux color centroids).1 < centroids.length :=
    closestIndexAux_fst_lt color centroids (by
      intro hnil; rw [hnil] at hk; simp at hk)
  exact lt_of_le_of_lt (Nat.mod_le _ _) h1

theorem sumAssigned_foldl (i : ℕ) :
    ∀ (l : List (ℕ × Rgb)) (a : ChannelSums),
      a.sr < 2 ^ 32 → a.sg < 2 ^ 32 → a.sb < 2 ^ 32 → a.count < 2 ^ 32 →
      l.foldl
        (fun acc p =>
          if p.1 == i then
            ⟨(acc.sr + p.2.r) % 2 ^ 32, (acc.sg + p.2.g) % 2 ^ 32,
             (acc.sb + p.2.b) % 2 ^ 32, (acc.count + 1) % 2 ^ 32⟩
          else acc) a =
        ⟨(a.sr + ((assignedOf l i).map Rgb.r).sum) % 2 ^ 32,
         (a.sg + ((assignedOf l i).map Rgb.g).sum) % 2 ^ 32,
         (a.sb + ((assignedOf l i).map Rgb.b).sum) % 2 ^ 32,
         (a.count + (assignedOf l i).length) % 2 ^ 32⟩ := by
  intro l
  induction l with
  | nil =>
    intro a h1 h2 h3 h4
    simp only [List.foldl_nil, assignedOf, List.filter_nil, List.map_nil,
      List.length_nil, List.sum_nil, Nat.add_zero]
    cases a
    simp_all [Nat.mod_eq_of_lt]
  | cons p rest ih =>
    intro a h1 h2 h3 h4
    by_cases hp : p.1 = i
    · have hfold : (p :: rest).foldl
          (fun acc q =>
            if q.1 == i then
              ⟨(acc.sr + q.2.r) % 2 ^ 32, (acc.sg + q.2.g) % 2 ^ 32,
               (acc.sb + q.2.b) % 2 ^ 32, (acc.count + 1) % 2 ^ 32⟩
            else acc) a =
          rest.foldl
            (fun acc q =>
              if q.1 == i then
                ⟨(acc.sr + q.2.r) % 2 ^ 32, (acc.sg + q.2.g) % 2 ^ 32,
                 (acc.sb + q.2.b) % 2 ^ 32, (acc.count + 1) % 2 ^ 32⟩
              else acc)
            ⟨(a.sr + p.2.r) % 2 ^ 32, (a.sg + p.2.g) % 2 ^ 32,
             (a.sb + p.2.b) % 2 ^ 32, (a.count + 1) % 2 ^ 32⟩ := by
        simp [hp]
      rw [hfold, ih _ (Nat.mod_lt _ (by norm_num)) (Nat.mod_lt _ (by norm_num))
        (Nat.mod_lt _ (by norm_num)) (Nat.mod_lt _ (by norm_num))]
      have hsel : assignedOf (p :: rest) i = p.2 :: assignedOf rest i := by
        simp [assignedOf, List.filter_cons, hp]
      rw [hsel]
      simp only [List.map_cons, List.sum_cons, List.length_cons, ChannelSums.mk.injEq]
      refine ⟨?_, ?_, ?_, ?_⟩ <;> omega
    · have hfold : (p :: rest).foldl
          (fun acc q =>
            if q.1 == i then
              ⟨(acc.sr + q.2.r) % 2 ^ 32, (acc.sg + q.2.g) % 2 ^ 32,
               (acc.sb + q.2.b) % 2 ^ 32, (acc.count + 1) % 2 ^ 32⟩
            else acc) a =
          rest.foldl
            (fun acc q =>
              if q.1 == i then
                ⟨(acc.sr + q.2.r) % 2 ^ 32, (acc.sg + q.2.g) % 2 ^ 32,
                 (acc.sb + q.2.b) % 2 ^ 32, (acc.count + 1) % 2 ^ 32⟩
              else acc) a := by
        simp [hp]
      have hsel : assignedOf (p :: rest) i = assignedOf rest i := by
        simp [assignedOf, List.filter_cons, hp]
      rw [hfold, ih a h1 h2 h3 h4, hsel]

theorem sumAssigned_eq (data : List Rgb) (indices : List ℕ) (i : ℕ) :
    sumAssigned data indices i =
      ⟨((assignedSamples data indices i).map Rgb.r).sum % 2 ^ 32,
       ((assignedSamples data indices i).map Rgb.g).sum % 2 ^ 32,
       ((assignedSamples data indices i).map Rgb.b).sum % 2 ^ 32,
       (assignedSamples data indices i).length % 2 ^ 32⟩ := by
  have h := sumAssigned_foldl i (indices.zip data) ⟨0, 0, 0, 0⟩
    (by norm_num) (by norm_num) (by norm_num) (by norm_num)
  simpa [sumAssigned, assignedSamples] using h

theorem recalculate_centroids_getD (data centroids : List Rgb)
    (indices : List ℕ) (i : ℕ) (hi : i < centroids.length) :
    (recalculate_centroids data centroids indices).getD i ⟨0, 0, 0⟩ =
      (if 0 < (sumAssigned data indices i).count then
        (⟨(sumAssigned data indices i).sr / (sumAssigned data indices i).count % 256,
          (sumAssigned data indices i).sg / (sumAssigned data indices i).count % 256,
          (sumAssigned data indices i).sb / (sumAssigned data indices i).count % 256⟩ : Rgb)
      else centroids.getD i ⟨0, 0, 0⟩) := by
  have hget : centroids[i]? = some centroids[i] := List.getElem?_eq_getElem hi
  have h1 : (recalculate_centroids data centroids indices)[i]? =
      some (let p := (i, centroids[i])
        let s := sumAssigned data indices p.1
        if 0 < s.count then
          (⟨s.sr / s.count % 256, s.sg / s.count % 256, s.sb / s.count % 256⟩ : Rgb)
        else p.2) := by
    rw [recalculate_centroids, List.getElem?_map, List.getElem?_enum, hget]
    rfl
  rw [List.getD_eq_getElem?_getD, h1]
  rw [List.getD_eq_getElem?_getD, hget]
  rfl

theorem closestLoop_spec (color : Rgb) :
    ∀ (l : List Rgb) (i best : ℕ) (minD : ℚ),
      (closestLoop color l i (best, minD) = (best, minD) ∧
        ∀ j, j < l.length → minD ≤ Rgb.difference color (l.getD j ⟨0, 0, 0⟩)) ∨
      (∃ j, j < l.length ∧
        (closestLoop color l i (best, minD)).1 = i + j ∧
        (closestLoop color l i (best, minD)).2 =
          Rgb.difference color (l.getD j ⟨0, 0, 0⟩) ∧
        (closestLoop color l i (best, minD)).2 < minD ∧
        (∀ j2, j2 < l.length →
          (closestLoop color l i (best, minD)).2 ≤
            Rgb.difference color (l.getD j2 ⟨0, 0, 0⟩)) ∧
        (∀ j2, j2 < j →
          (closestLoop color l i (best, minD)).2 <
            Rgb.difference color (l.getD j2 ⟨0, 0, 0⟩))) := by
  intro l
  induction l with
  | nil =>
    intro i best minD
    left
    exact ⟨rfl, fun j hj => absurd hj (by simp)⟩
  | cons c rest ih =>
    intro i best minD
    by_cases hd : Rgb.difference color c < minD
    · have heq : closestLoop color (c :: rest) i (best, minD) =
          closestLoop color rest (i + 1) (i, Rgb.difference color c) := by
        simp [closestLoop, hd]
      rcases ih (i + 1) i (Rgb.difference color c) with
        ⟨h1, h2⟩ | ⟨j, hj, hfst, hsnd, hlt, hmin, hstrict⟩
      · right
        refine ⟨0, by simp, ?_, ?_, ?_, ?_, ?_⟩
        · rw [heq, h1]; simp
        · rw [heq, h1]; simp [List.getD_cons_zero]
        · rw [heq, h1]; exact hd
        · intro j2 hj2
          rw [heq, h1]
          match j2, hj2 with
          | 0, _ => simp [List.getD_cons_zero]
          | j2 + 1, hj2 =>
            simpa [List.getD_cons_succ] using h2 j2 (by simpa using hj2)
        · intro j2 hj2; omega
      · right
        refine ⟨j + 1, by simpa using Nat.succ_lt_succ hj, ?_, ?_, ?_, ?_, ?_⟩
        · rw [heq, hfst]; omega
        · rw [heq, hsnd]; simp [List.getD_cons_succ]
        · rw [heq]; exact lt_trans hlt hd
        · intro j2 hj2
          rw [heq]
          match j2, hj2 with
          | 0, _ =>
            simpa [List.getD_cons_zero] using le_of_lt hlt
          | j2 + 1, hj2 =>
            simpa [List.getD_cons_succ] using hmin j2 (by simpa using hj2)
        · intro j2 hj2
          rw [heq]
          match j2, hj2 with
          | 0, _ => simpa [List.getD_cons_zero] using hlt
          | j2 + 1, hj2 =>
            simpa [List.getD_cons_succ] using hstrict j2 (by omega)
    · have heq : closestLoop color (c :: rest) i (best, minD) =
          closestLoop color rest (i + 1) (best, minD) := by
        simp [closestLoop, hd]
      rcases ih (i + 1) best minD with
        ⟨h1, h2⟩ | ⟨j, hj, hfst, hsnd, hlt, hmin, hstrict⟩
      · left
        refine ⟨by rw [heq]; exact h1, ?_⟩
        intro j2 hj2
        match j2, hj2 with
        | 0, _ => simpa [List.getD_cons_zero] using not_lt.mp hd
        | j2 + 1, hj2 =>
          simpa [List.getD_cons_succ] using h2 j2 (by simpa using hj2)
      · right
        refine ⟨j + 1, by simpa using Nat.succ_lt_succ hj, ?_, ?_, ?_, ?_, ?_⟩
        · rw [heq, hfst]; omega
        · rw [heq, hsnd]; simp [List.getD_cons_succ]
        · rw [heq]; exact hlt
        · intro j2 hj2
          rw [heq]
          match j2, hj2 with
          | 0, _ =>
            simpa [List.getD_cons_zero] using le_of_lt (lt_of_lt_of_le hlt (not_lt.mp hd))
          | j2 + 1, hj2 =>
            simpa [List.getD_cons_succ] using hmin j2 (by simpa using hj2)
        · intro j2 hj2
          rw [heq]
          match j2, hj2 with
          | 0, _ => simpa [List.getD_cons_zero] using lt_of_lt_of_le hlt (not_lt.mp hd)
          | j2 + 1, hj2 =>
            simpa [List.getD_cons_succ] using hstrict j2 (by omega)

theorem difference_lt_init (c1 c2 : Rgb)
    (h1 : c1.r ≤ 255 ∧ c1.g ≤ 255 ∧ c1.b ≤ 255)
    (h2 : c2.r ≤ 255 ∧ c2.g ≤ 255 ∧ c2.b ≤ 255) :
    Rgb.difference c1 c2 < minDistInit := by
  have hterm : ∀ (a b : ℕ), a ≤ 255 → b ≤ 255 →
      ((a : ℚ) - (b : ℚ)) ^ 2 ≤ 65025 := by
    intro a b ha hb
    have ha2 : (a : ℚ) ≤ 255 := by exact_mod_cast ha
    have hb2 : (b : ℚ) ≤ 255 := by exact_mod_cast hb
    have ha0 : (0 : ℚ) ≤ (a : ℚ) := Nat.cast_nonneg a
    have hb0 : (0 : ℚ) ≤ (b : ℚ) := Nat.cast_nonneg b
    nlinarith
  have t1 := hterm c1.r c2.r h1.1 h2.1
  have t2 := hterm c1.g c2.g h1.2.1 h2.2.1
  have t3 := hterm c1.b c2.b h1.2.2 h2.2.2
  have hM : (195075 : ℚ) < minDistInit := by rw [minDistInit]; norm_num
  rw [Rgb.difference]
  linarith

theorem getD_replicate_lt {α : Type} (a d : α) :
    ∀ (n i : ℕ), i < n → (List.replicate n a).getD i d = a
  | n + 1, 0, _ => rfl
  | n + 1, i + 1, h => by
    simp only [List.replicate_succ, List.getD_cons_succ]
    exact getD_replicate_lt a d n i (by omega)

theorem assignedSamples_sub (data : List Rgb) (indices : List ℕ) (i : ℕ) :
    ∀ s ∈ assignedSamples data indices i, s ∈ data := by
  intro s hs
  simp only [assignedSamples, assignedOf, List.mem_map, List.mem_filter] at hs
  obtain ⟨p, ⟨hpz, _⟩, rfl⟩ := hs
  rcases p with ⟨v, s⟩
  exact (List.of_mem_zip hpz).2

theorem replicate_zip {α β : Type} :
    ∀ (n : ℕ) (a : α) (b : β),
      (List.replicate n a).zip (List.replicate n b) = List.replicate n (a, b)
  | 0, _, _ => rfl
  | n + 1, a, b => by
    simp [List.replicate_succ, replicate_zip n a b]

theorem filter_replicate_pos {α : Type} (p : α → Bool) (a : α) (h : p a = true) :
    ∀ n, (List.replicate n a).filter p = List.replicate n a
  | 0 => rfl
  | n + 1 => by
    simp [List.replicate_succ, List.filter_cons, h, filter_replicate_pos p a h n]

theorem assignedSamples_replicate (n : ℕ) :
    assignedSamples (List.replicate n ⟨255, 255, 255⟩) (List.replicate n 0) 0 =
      List.replicate n (⟨255, 255, 255⟩ : Rgb) := by
  rw [assignedSamples, replicate_zip, assignedOf,
    filter_replicate_pos _ _ (by decide), List.map_replicate]

theorem rgbPixels_short (p : List ℕ) (h : p.length < 4) : rgbPixels p = [] := by
  match p, h with
  | [], _ => rfl
  | [_], _ => rfl
  | [_, _], _ => rfl
  | [_, _, _], _ => rfl
  | _ :: _ :: _ :: _ :: _, h =>
    exact absurd h (by simp only [List.length_cons, not_lt]; omega)

theorem rgbPixels_length : ∀ p : List ℕ, (rgbPixels p).length = p.length / 4
  | [] => by
    rw [rgbPixels_short [] (by simp)]
    simp
  | [x] => by
    rw [rgbPixels_short [x] (by simp)]
    simp
  | [x, y] => by
    rw [rgbPixels_short [x, y] (by simp)]
    simp
  | [x, y, z] => by
    rw [rgbPixels_short [x, y, z] (by simp)]
    simp
  | r :: g :: b :: a :: rest => by
    simp only [rgbPixels, List.length_cons]
    rw [rgbPixels_length rest]
    omega

theorem rgbPixels_getElem? :
    ∀ (p : List ℕ) (j : ℕ), j < p.length / 4 →
      (rgbPixels p)[j]? =
        some ⟨p.getD (4 * j) 0, p.getD (4 * j + 1) 0, p.getD (4 * j + 2) 0⟩
  | [], j, h => by
    exfalso
    simp only [List.length_nil] at h
    omega
  | [_], j, h => by
    exfalso
    simp only [List.length_cons, List.length_nil] at h
    omega
  | [_, _], j, h => by
    exfalso
    simp only [List.length_cons, List.length_nil] at h
    omega
  | [_, _, _], j, h => by
    exfalso
    simp only [List.length_cons, List.length_nil] at h
    omega
  | r :: g :: b :: a :: rest, 0, h => by
    simp [rgbPixels, List.getD_cons_zero, List.getD_cons_succ]
  | r :: g :: b :: a :: rest, j + 1, h => by
    have h4 : 4 * (j + 1) = 4 * j + 1 + 1 + 1 + 1 := by ring
    have h5 : 4 * (j + 1) + 1 = 4 * j + 1 + 1 + 1 + 1 + 1 := by ring
    have h6 : 4 * (j + 1) + 2 = 4 * j + 2 + 1 + 1 + 1 + 1 := by ring
    have hj : j < rest.length / 4 := by
      simp only [List.length_cons] at h
      omega
    simp only [rgbPixels, List.getElem?_cons_succ, h4, h5, h6, List.getD_cons_succ]
    rw [rgbPixels_getElem? rest j hj]

theorem rgbPixels_congr :
    ∀ (p1 p2 : List ℕ), p1.length = p2.length →
      (∀ i, i < p1.length → i % 4 ≠ 3 → p1[i]? = p2[i]?) →
      rgbPixels p1 = rgbPixels p2
  | [], p2, hlen, _ => by
    rw [rgbPixels_short [] (by simp), rgbPixels_short p2 (by
      simp only [List.length_nil] at hlen
      omega)]
  | [x], p2, hlen, _ => by
    rw [rgbPixels_short [x] (by simp), rgbPixels_short p2 (by
      simp only [List.length_cons, List.length_nil] at hlen
      omega)]
  | [x, y], p2, hlen, _ => by
    rw [rgbPixels_short [x, y] (by simp), rgbPixels_short p2 (by
      simp only [List.length_cons, List.length_nil] at hlen
      omega)]
  | [x, y, z], p2, hlen, _ => by
    rw [rgbPixels_short [x, y, z] (by simp), rgbPixels_short p2 (by
      simp only [List.length_cons, List.length_nil] at hlen
      omega)]
  | a :: b :: c :: d :: rest, p2, hlen, hag => by
    rcases p2 with _ | ⟨a2, p2⟩
    · simp at hlen
    rcases p2 with _ | ⟨b2, p2⟩
    · simp at hlen
    rcases p2 with _ | ⟨c2, p2⟩
    · simp at hlen
    rcases p2 with _ | ⟨d2, rest2⟩
    · simp at hlen
    have ha : a = a2 := by
      have h := hag 0 (by simp) (by decide)
      simpa using h
    have hb : b = b2 := by
      have h := hag 1 (by simp) (by decide)
      simpa using h
    have hc : c = c2 := by
      have h := hag 2 (by simp) (by decide)
      simpa using h
    have htail := rgbPixels_congr rest rest2 (by simpa using hlen)
      (fun i hi hm => by
        have h := hag (i + 4) (by simp only [List.length_cons]; omega) (by omega)
        simpa using h)
    simp only [rgbPixels, ha, hb, hc, htail]

theorem foldl_dedupStep_pairwise (t : ℚ) :
    ∀ (l acc : List Color),
      acc.Pairwise (fun a c => ¬ color_distance_rgb c a < t) →
      (l.foldl (dedupStep t) acc).Pairwise (fun a c => ¬ color_distance_rgb c a < t) := by
  intro l
  induction l with
  | nil => intro acc h; exact h
  | cons c rest ih =>
    intro acc h
    simp only [List.foldl_cons]
    apply ih
    unfold dedupStep
    split
    · exact h
    · next hany =>
      rw [List.pairwise_append]
      refine ⟨h, List.pairwise_singleton _ _, ?_⟩
      intro a ha b hb
      simp only [List.mem_singleton] at hb
      subst hb
      simp only [List.any_eq_true, decide_eq_true_eq, not_exists, not_and] at hany
      exact hany a ha

theorem foldl_dedupStep_fixed (t : ℚ) :
    ∀ (l acc : List Color),
      (∀ c ∈ l, ∀ a ∈ acc, ¬ color_distance_rgb c a < t) →
      l.Pairwise (fun a c => ¬ color_distance_rgb c a < t) →
      l.foldl (dedupStep t) acc = acc ++ l := by
  intro l
  induction l with
  | nil => intro acc _ _; simp
  | cons c rest ih =>
    intro acc hcross hpair
    have hkeep : dedupStep t acc c = acc ++ [c] := by
      unfold dedupStep
      rw [if_neg]
      simp only [List.any_eq_true, decide_eq_true_eq, not_exists, not_and]
      intro a ha
      exact hcross c (List.mem_cons_self c rest) a ha
    rw [List.pairwise_cons] at hpair
    simp only [List.foldl_cons, hkeep]
    rw [ih (acc ++ [c]) ?_ hpair.2]
    · simp
    · intro c' hc' a ha
      rcases List.mem_append.1 ha with h | h
      · exact hcross c' (List.mem_cons_of_mem c hc') a h
      · simp only [List.mem_singleton] at h
        subst h
        exact hpair.1 c' hc'

theorem getElem_eq_getD (l : List ℕ) (i : ℕ) (h : i < l.length) :
    l[i] = l.getD i 0 := by
  rw [List.getD_eq_getElem?_getD, List.getElem?_eq_getElem h]
  rfl

theorem get_closest_centroid_length (data centroids : List Rgb) :
    (get_closest_centroid data centroids).length = data.length := by
  simp [get_closest_centroid]

theorem recalculate_centroids_length (data centroids : List Rgb)
    (indices : List ℕ) :
    (recalculate_centroids data centroids indices).length = centroids.length := by
  simp [recalculate_centroids, List.enum_length]

theorem kmeansLoop_length (data : List Rgb) (converge : ℚ) :
    ∀ (n : ℕ) (cents : List Rgb),
      (kmeansLoop data converge n cents).length = cents.length
  | 0, cents => rfl
  | n + 1, cents => by
    simp only [kmeansLoop]
    split
    · exact recalculate_centroids_length data cents _
    · rw [kmeansLoop_length data converge n _]
      exact recalculate_centroids_length data cents _

theorem initCentroids_length : ∀ (k s : ℕ), ((initCentroids k s).1).length = k
  | 0, _ => rfl
  | k + 1, s => by
    simp only [initCentroids, List.length_cons]
    rw [initCentroids_length k _]

theorem get_kmeans_centroids_length (k mi : ℕ) (c : ℚ) (data : List Rgb)
    (s : ℕ) : (get_kmeans k mi c data s).centroids.length = k := by
  simp only [get_kmeans]
  rw [kmeansLoop_length, initCentroids_length]

theorem get_kmeans_indices_length (k mi : ℕ) (c : ℚ) (data : List Rgb)
    (s : ℕ) : (get_kmeans k mi c data s).indices.length = data.length := by
  simp only [get_kmeans]
  exact get_closest_centroid_length data _

theorem get_kmeans_indices_lt (k mi : ℕ) (c : ℚ) (data : List Rgb) (s : ℕ)
    (hk : 1 ≤ k) : ∀ v ∈ (get_kmeans k mi c data s).indices, v < k := by
  intro v hv
  have hlenc : (kmeansLoop data c mi (initCentroids k s).1).length = k := by
    rw [kmeansLoop_length, initCentroids_length]
  simp only [get_kmeans] at hv
  have h := get_closest_centroid_mem_lt data _ (by rw [hlenc]; exact hk) v hv
  rwa [hlenc] at h

theorem countsFold_length (k : ℕ) :
    ∀ (l acc : List ℕ),
      (l.foldl (fun acc ci => if ci < k then acc.set ci (acc.getD ci 0 + 1) else acc)
        acc).length = acc.length
  | [], _ => rfl
  | x :: rest, acc => by
    simp only [List.foldl_cons]
    rw [countsFold_length k rest _]
    split <;> simp [List.length_set]

theorem sum_set_incr :
    ∀ (acc : List ℕ) (x : ℕ), x < acc.length →
      (acc.set x (acc.getD x 0 + 1)).sum = acc.sum + 1
  | [], x, h => by simp at h
  | a :: rest, 0, _ => by
    simp only [List.set_cons_zero, List.getD_cons_zero, List.sum_cons]
    omega
  | a :: rest, x + 1, h => by
    simp only [List.set_cons_succ, List.getD_cons_succ, List.sum_cons]
    rw [sum_set_incr rest x (by simpa using h)]
    omega

theorem getD_set_incr (acc : List ℕ) (x i : ℕ) (hx : x < acc.length) :
    (acc.set x (acc.getD x 0 + 1)).getD i 0 =
      acc.getD i 0 + (if x == i then 1 else 0) := by
  by_cases hxi : x = i
  · subst hxi
    rw [List.getD_eq_getElem?_getD, List.getElem?_set_eq_of_lt _ hx]
    simp [List.getD_eq_getElem?_getD]
  · rw [List.getD_eq_getElem?_getD, List.getElem?_set, if_neg hxi]
    simp [List.getD_eq_getElem?_getD, hxi]

theorem countsFold_sum (k : ℕ) :
    ∀ (l acc : List ℕ), acc.length = k → (∀ x ∈ l, x < k) →
      (l.foldl (fun acc ci => if ci < k then acc.set ci (acc.getD ci 0 + 1) else acc)
        acc).sum = acc.sum + l.length
  | [], acc, _, _ => by simp
  | x :: rest, acc, hlen, hmem => by
    have hx : x < k := hmem x (List.mem_cons_self x rest)
    simp only [List.foldl_cons]
    rw [if_pos hx]
    rw [countsFold_sum k rest (acc.set x (acc.getD x 0 + 1))
      (by rw [List.length_set]; exact hlen)
      (fun y hy => hmem y (List.mem_cons_of_mem x hy))]
    rw [sum_set_incr acc x (by omega)]
    simp only [List.length_cons]
    omega

theorem countsFold_getD (k i : ℕ) (hik : i < k) :
    ∀ (l acc : List ℕ), acc.length = k → (∀ x ∈ l, x < k) →
      (l.foldl (fun acc ci => if ci < k then acc.set ci (acc.getD ci 0 + 1) else acc)
        acc).getD i 0 = acc.getD i 0 + l.count i
  | [], acc, _, _ => by simp
  | x :: rest, acc, hlen, hmem => by
    have hx : x < k := hmem x (List.mem_cons_self x rest)
    simp only [List.foldl_cons]
    rw [if_pos hx]
    rw [countsFold_getD k i hik rest (acc.set x (acc.getD x 0 + 1))
      (by rw [List.length_set]; exact hlen)
      (fun y hy => hmem y (List.mem_cons_of_mem x hy))]
    rw [getD_set_incr acc x i (by omega), List.count_cons]
    omega

theorem sum_map_div (t : ℚ) :
    ∀ l : List ℕ,
      (l.map (fun (cnt : ℕ) => (cnt : ℚ) / t * 100)).sum = (l.sum : ℚ) / t * 100
  | [] => by simp
  | x :: rest => by
    rw [List.map_cons, List.sum_cons, sum_map_div t rest, List.sum_cons,
      Nat.cast_add]
    ring

theorem extract_ok (e : PaletteExtractor) (pixels : List ℕ) (k : ℕ)
    (h1 : pixels.length % 4 = 0) (h2 : k ≠ 0) (h3 : rgbPixels pixels ≠ []) :
    e.extract_palette_from_pixels pixels k =
      .ok { colors := (get_kmeans k e.max_iter e.converge (rgbPixels pixels)
              0).centroids.map (fun c => ⟨c.r, c.g, c.b⟩),
            percentages := ((get_kmeans k e.max_iter e.converge (rgbPixels pixels)
              0).indices.foldl
              (fun acc ci => if ci < k then acc.set ci (acc.getD ci 0 + 1) else acc)
              (List.replicate k 0)).map
              (fun (cnt : ℕ) => (cnt : ℚ) / ((rgbPixels pixels).length : ℚ) * 100) } := by
  simp only [PaletteExtractor.extract_palette_from_pixels]
  rw [if_neg (fun hc => hc h1), if_neg h2,
    if_neg (by rw [List.isEmpty_iff]; exact h3)]

/-! ### Claim theorems -/

/-- C3: the assignment produced by get_closest_centroid has length equal to the
number of samples, and every assignment value lies in [0, k) where k is the
number of centroids (k at least 1). -/
theorem get_closest_centroid_length_and_range (data centroids : List Rgb)
    (hk : 1 ≤ centroids.length) :
    (get_closest_centroid data centroids).length = data.length ∧
      ∀ v ∈ get_closest_centroid data centroids, v < centroids.length := by
  exact ⟨by simp [get_closest_centroid], get_closest_centroid_mem_lt data centroids hk⟩

theorem get_closest_centroid_length_and_range_witness :
    1 ≤ ([⟨0, 0, 0⟩, ⟨9, 9, 9⟩] : List Rgb).length ∧
      ((get_closest_centroid [⟨1, 2, 3⟩, ⟨8, 8, 8⟩] [⟨0, 0, 0⟩, ⟨9, 9, 9⟩]).length =
          ([⟨1, 2, 3⟩, ⟨8, 8, 8⟩] : List Rgb).length ∧
        ∀ v ∈ get_closest_centroid [⟨1, 2, 3⟩, ⟨8, 8, 8⟩] [⟨0, 0, 0⟩, ⟨9, 9, 9⟩],
          v < ([⟨0, 0, 0⟩, ⟨9, 9, 9⟩] : List Rgb).length) :=
  ⟨by decide,
    get_closest_centroid_length_and_range [⟨1, 2, 3⟩, ⟨8, 8, 8⟩] [⟨0, 0, 0⟩, ⟨9, 9, 9⟩]
      (by decide)⟩

/-- C1: on every accepted buffer (length divisible by 4, non-empty) and every
k at least 1, the result has exactly k colors and k percentages; the
percentage at index i is (count of final assignments equal to i) divided by
the number of samples, times 100; indices with zero assignments get exactly 0;
every percentage lies in [0, 100]; and the percentages sum to exactly 100 in
the exact-arithmetic embedding (hence within any small epsilon of 100). -/
theorem extract_palette_from_pixels_spec (e : PaletteExtractor)
    (pixels : List ℕ) (k : ℕ) (hlen : pixels.length % 4 = 0)
    (hne : pixels ≠ []) (hk : 1 ≤ k) :
    ∃ p : PaletteResult,
      e.extract_palette_from_pixels pixels k = .ok p ∧
      p.length = k ∧
      p.percentages.length = k ∧
      (∀ i, i < k →
        p.get_percentage i = some
          (((get_kmeans k e.max_iter e.converge (rgbPixels pixels) 0).indices.count i : ℚ) /
            ((rgbPixels pixels).length : ℚ) * 100)) ∧
      (∀ i, i < k →
        (get_kmeans k e.max_iter e.converge (rgbPixels pixels) 0).indices.count i = 0 →
          p.get_percentage i = some 0) ∧
      (∀ q ∈ p.percentages, 0 ≤ q ∧ q ≤ 100) ∧
      p.percentages.sum = 100 := by
  have hlen0 : pixels.length ≠ 0 := fun h => hne (List.eq_nil_of_length_eq_zero h)
  have hrgblen : (rgbPixels pixels).length = pixels.length / 4 :=
    rgbPixels_length pixels
  have hn : 0 < (rgbPixels pixels).length := by rw [hrgblen]; omega
  have h3 : rgbPixels pixels ≠ [] := by
    intro hnil
    rw [hnil] at hn
    simp at hn
  have hok := extract_ok e pixels k hlen (by omega) h3
  have hindlt := get_kmeans_indices_lt k e.max_iter e.converge (rgbPixels pixels) 0 hk
  have hindlen := get_kmeans_indices_length k e.max_iter e.converge (rgbPixels pixels) 0
  have hcountslen :
      ((get_kmeans k e.max_iter e.converge (rgbPixels pixels) 0).indices.foldl
        (fun acc ci => if ci < k then acc.set ci (acc.getD ci 0 + 1) else acc)
        (List.replicate k 0)).length = k := by
    rw [countsFold_length, List.length_replicate]
  have hget? : ∀ (l : List ℕ) (i : ℕ), i < l.length → l[i]? = some (l.getD i 0) := by
    intro l i h
    rw [List.getD_eq_getElem?_getD, List.getElem?_eq_getElem h]
    rfl
  have hcountsgetD : ∀ i, i < k →
      ((get_kmeans k e.max_iter e.converge (rgbPixels pixels) 0).indices.foldl
        (fun acc ci => if ci < k then acc.set ci (acc.getD ci 0 + 1) else acc)
        (List.replicate k 0)).getD i 0 =
        (get_kmeans k e.max_iter e.converge (rgbPixels pixels) 0).indices.count i := by
    intro i hik
    rw [countsFold_getD k i hik _ _ (List.length_replicate k 0) hindlt,
      getD_replicate_lt 0 0 k i hik, Nat.zero_add]
  have hperc : ∀ i, i < k →
      (PaletteResult.mk
        ((get_kmeans k e.max_iter e.converge (rgbPixels pixels) 0).centroids.map
          (fun c => ⟨c.r, c.g, c.b⟩))
        (((get_kmeans k e.max_iter e.converge (rgbPixels pixels) 0).indices.foldl
          (fun acc ci => if ci < k then acc.set ci (acc.getD ci 0 + 1) else acc)
          (List.replicate k 0)).map
          (fun (cnt : ℕ) => (cnt : ℚ) / ((rgbPixels pixels).length : ℚ) * 100))).get_percentage i =
        some
          (((get_kmeans k e.max_iter e.converge (rgbPixels pixels) 0).indices.count i : ℚ) /
            ((rgbPixels pixels).length : ℚ) * 100) := by
    intro i hik
    rw [PaletteResult.get_percentage]
    dsimp only
    rw [List.getElem?_map, hget? _ i (by rw [hcountslen]; exact hik),
      hcountsgetD i hik]
    rfl
  refine ⟨_, hok, ?_, ?_, hperc, ?_, ?_, ?_⟩
  · rw [PaletteResult.length]
    dsimp only
    rw [List.length_map, get_kmeans_centroids_length]
  · dsimp only
    rw [List.length_map, hcountslen]
  · intro i hik hz
    have h := hperc i hik
    rw [hz] at h
    simpa using h
  · intro q hq
    dsimp only at hq
    obtain ⟨cnt, hcnt, rfl⟩ := List.mem_map.1 hq
    have hcntle : cnt ≤ (rgbPixels pixels).length := by
      obtain ⟨i, hilt, rfl⟩ := List.mem_iff_getElem.1 hcnt
      have hik : i < k := by rw [hcountslen] at hilt; exact hilt
      rw [getElem_eq_getD _ i hilt, hcountsgetD i hik]
      calc (get_kmeans k e.max_iter e.converge (rgbPixels pixels) 0).indices.count i
          ≤ (get_kmeans k e.max_iter e.converge (rgbPixels pixels) 0).indices.length :=
            List.count_le_length _ _
        _ = (rgbPixels pixels).length := hindlen
    have hnpos : (0 : ℚ) < ((rgbPixels pixels).length : ℚ) := by
      exact_mod_cast hn
    constructor
    · positivity
    · have hc : (cnt : ℚ) ≤ ((rgbPixels pixels).length : ℚ) := by exact_mod_cast hcntle
      calc (cnt : ℚ) / ((rgbPixels pixels).length : ℚ) * 100
          ≤ 1 * 100 := by
            apply mul_le_mul_of_nonneg_right ((div_le_one hnpos).2 hc)
            norm_num
        _ = 100 := by norm_num
  · dsimp only
    rw [sum_map_div]
    rw [countsFold_sum k _ _ (List.length_replicate k 0) hindlt]
    rw [List.sum_replicate, smul_zero, Nat.zero_add, hindlen]
    have hQ : ((rgbPixels pixels).length : ℚ) ≠ 0 := by
      have hpos : (0 : ℚ) < ((rgbPixels pixels).length : ℚ) := by exact_mod_cast hn
      exact ne_of_gt hpos
    rw [div_self hQ]
    norm_num

theorem extract_palette_from_pixels_spec_witness :
    (([255, 0, 0, 255, 0, 0, 255, 255, 255, 0, 0, 255, 0, 0, 255, 255] : List ℕ).length % 4 = 0 ∧
      ([255, 0, 0, 255, 0, 0, 255, 255, 255, 0, 0, 255, 0, 0, 255, 255] : List ℕ) ≠ [] ∧
      1 ≤ 2) ∧
    ∃ p : PaletteResult,
      PaletteExtractor.new.extract_palette_from_pixels
          [255, 0, 0, 255, 0, 0, 255, 255, 255, 0, 0, 255, 0, 0, 255, 255] 2 = .ok p ∧
      p.length = 2 ∧
      p.percentages.length = 2 ∧
      (∀ i, i < 2 →
        p.get_percentage i = some
          (((get_kmeans 2 PaletteExtractor.new.max_iter PaletteExtractor.new.converge
              (rgbPixels [255, 0, 0, 255, 0, 0, 255, 255, 255, 0, 0, 255, 0, 0, 255, 255]) 0).indices.count i : ℚ) /
            ((rgbPixels [255, 0, 0, 255, 0, 0, 255, 255, 255, 0, 0, 255, 0, 0, 255, 255]).length : ℚ) * 100)) ∧
      (∀ i, i < 2 →
        (get_kmeans 2 PaletteExtractor.new.max_iter PaletteExtractor.new.converge
            (rgbPixels [255, 0, 0, 255, 0, 0, 255, 255, 255, 0, 0, 255, 0, 0, 255, 255]) 0).indices.count i = 0 →
          p.get_percentage i = some 0) ∧
      (∀ q ∈ p.percentages, 0 ≤ q ∧ q ≤ 100) ∧
      p.percentages.sum = 100 :=
  ⟨⟨by decide, by decide, by decide⟩,
    extract_palette_from_pixels_spec PaletteExtractor.new
      [255, 0, 0, 255, 0, 0, 255, 255, 255, 0, 0, 255, 0, 0, 255, 255] 2
      (by decide) (by decide) (by decide)⟩

/-- C2 (amended): when the per-channel sums of the assigned samples fit in u32
— in particular whenever every sample channel is a byte and at most 16843009
samples are assigned to the centroid — each recomputed channel value is the
integer sum of that channel over the assigned samples divided by their count,
truncated toward zero; a centroid with zero assigned samples is left exactly
unchanged.  (The unamended claim fails because the u32 accumulators wrap, see
the counterexample.) -/
theorem recalculate_centroids_spec (data centroids : List Rgb)
    (indices : List ℕ) (i : ℕ) (hi : i < centroids.length)
    (hch : ∀ s ∈ data, s.r ≤ 255 ∧ s.g ≤ 255 ∧ s.b ≤ 255)
    (hcnt : (assignedSamples data indices i).length ≤ 16843009) :
    (0 < (assignedSamples data indices i).length →
      (recalculate_centroids data centroids indices).getD i ⟨0, 0, 0⟩ =
        ⟨((assignedSamples data indices i).map Rgb.r).sum /
            (assignedSamples data indices i).length,
          ((assignedSamples data indices i).map Rgb.g).sum /
            (assignedSamples data indices i).length,
          ((assignedSamples data indices i).map Rgb.b).sum /
            (assignedSamples data indices i).length⟩) ∧
    ((assignedSamples data indices i).length = 0 →
      (recalculate_centroids data centroids indices).getD i ⟨0, 0, 0⟩ =
        centroids.getD i ⟨0, 0, 0⟩) := by
  have hmem := assignedSamples_sub data indices i
  have hb : ∀ (f : Rgb → ℕ), (∀ s : Rgb, s.r ≤ 255 ∧ s.g ≤ 255 ∧ s.b ≤ 255 → f s ≤ 255) →
      ((assignedSamples data indices i).map f).sum ≤
        (assignedSamples data indices i).length * 255 := by
    intro f hf
    have h := List.sum_le_card_nsmul ((assignedSamples data indices i).map f) 255 ?_
    · simpa [smul_eq_mul] using h
    · intro x hx
      simp only [List.mem_map] at hx
      obtain ⟨s, hs, rfl⟩ := hx
      exact hf s (hch s (hmem s hs))
  have hr := hb Rgb.r (fun s h => h.1)
  have hg := hb Rgb.g (fun s h => h.2.1)
  have hbb := hb Rgb.b (fun s h => h.2.2)
  have hs := sumAssigned_eq data indices i
  constructor
  · intro hpos
    have hlen2 : (assignedSamples data indices i).length % 2 ^ 32 =
        (assignedSamples data indices i).length :=
      Nat.mod_eq_of_lt (by omega)
    have hdiv : ∀ (S : ℕ), S ≤ (assignedSamples data indices i).length * 255 →
        S % 2 ^ 32 / ((assignedSamples data indices i).length % 2 ^ 32) % 256 =
          S / (assignedSamples data indices i).length := by
      intro S hS
      have hSlt : S < 2 ^ 32 := by omega
      rw [hlen2, Nat.mod_eq_of_lt hSlt]
      have hq : S / (assignedSamples data indices i).length ≤ 255 := by
        calc S / (assignedSamples data indices i).length ≤
            ((assignedSamples data indices i).length * 255) /
              (assignedSamples data indices i).length :=
              Nat.div_le_div_right hS
          _ = 255 := Nat.mul_div_cancel_left 255 hpos
      exact Nat.mod_eq_of_lt (by omega)
    rw [recalculate_centroids_getD data centroids indices i hi, hs]
    dsimp only
    rw [if_pos (show 0 < (assignedSamples data indices i).length % 2 ^ 32 by omega)]
    simp only [Rgb.mk.injEq]
    exact ⟨hdiv _ hr, hdiv _ hg, hdiv _ hbb⟩
  · intro hzero
    have hnil : assignedSamples data indices i = [] :=
      List.eq_nil_of_length_eq_zero hzero
    rw [recalculate_centroids_getD data centroids indices i hi, hs, hnil]
    simp

theorem recalculate_centroids_spec_witness :
    ((0 : ℕ) < ([(⟨1, 1, 1⟩ : Rgb), ⟨7, 7, 7⟩] : List Rgb).length ∧
      (∀ s ∈ ([⟨10, 20, 30⟩, ⟨13, 20, 30⟩] : List Rgb),
        s.r ≤ 255 ∧ s.g ≤ 255 ∧ s.b ≤ 255) ∧
      (assignedSamples [⟨10, 20, 30⟩, ⟨13, 20, 30⟩] [0, 0] 0).length ≤ 16843009) ∧
    ((0 < (assignedSamples [⟨10, 20, 30⟩, ⟨13, 20, 30⟩] [0, 0] 0).length →
      (recalculate_centroids [⟨10, 20, 30⟩, ⟨13, 20, 30⟩] [⟨1, 1, 1⟩, ⟨7, 7, 7⟩]
          [0, 0]).getD 0 ⟨0, 0, 0⟩ =
        ⟨((assignedSamples [⟨10, 20, 30⟩, ⟨13, 20, 30⟩] [0, 0] 0).map Rgb.r).sum /
            (assignedSamples [⟨10, 20, 30⟩, ⟨13, 20, 30⟩] [0, 0] 0).length,
          ((assignedSamples [⟨10, 20, 30⟩, ⟨13, 20, 30⟩] [0, 0] 0).map Rgb.g).sum /
            (assignedSamples [⟨10, 20, 30⟩, ⟨13, 20, 30⟩] [0, 0] 0).length,
          ((assignedSamples [⟨10, 20, 30⟩, ⟨13, 20, 30⟩] [0, 0] 0).map Rgb.b).sum /
            (assignedSamples [⟨10, 20, 30⟩, ⟨13, 20, 30⟩] [0, 0] 0).length⟩) ∧
    ((assignedSamples [⟨10, 20, 30⟩, ⟨13, 20, 30⟩] [0, 0] 0).length = 0 →
      (recalculate_centroids [⟨10, 20, 30⟩, ⟨13, 20, 30⟩] [⟨1, 1, 1⟩, ⟨7, 7, 7⟩]
          [0, 0]).getD 0 ⟨0, 0, 0⟩ = ([(⟨1, 1, 1⟩ : Rgb), ⟨7, 7, 7⟩]).getD 0 ⟨0, 0, 0⟩)) :=
  ⟨⟨by decide, by decide, by decide⟩,
    recalculate_centroids_spec [⟨10, 20, 30⟩, ⟨13, 20, 30⟩] [⟨1, 1, 1⟩, ⟨7, 7, 7⟩]
      [0, 0] 0 (by decide) (by decide) (by decide)⟩

/-- C2 counterexample: with 16843010 assigned samples of channel value 255 the
u32 channel accumulators wrap around (255 * 16843010 = 2^32 + 254), so the
recomputed centroid is (0,0,0) while the claimed truncated integer average of
the assigned samples is 255 per channel. -/
theorem recalculate_centroids_overflow :
    (recalculate_centroids (List.replicate 16843010 ⟨255, 255, 255⟩) [⟨1, 2, 3⟩]
        (List.replicate 16843010 0)).getD 0 ⟨0, 0, 0⟩ = (⟨0, 0, 0⟩ : Rgb) ∧
      ((assignedSamples (List.replicate 16843010 ⟨255, 255, 255⟩)
            (List.replicate 16843010 0) 0).map Rgb.r).sum /
          (assignedSamples (List.replicate 16843010 ⟨255, 255, 255⟩)
            (List.replicate 16843010 0) 0).length = 255 ∧
      (⟨0, 0, 0⟩ : Rgb) ≠ (⟨255, 255, 255⟩ : Rgb) := by
  have hA := assignedSamples_replicate 16843010
  have hs := sumAssigned_eq (List.replicate 16843010 ⟨255, 255, 255⟩)
    (List.replicate 16843010 0) 0
  rw [hA] at hs
  have e1 : ((List.replicate 16843010 (⟨255, 255, 255⟩ : Rgb)).map Rgb.r).sum =
      4294967550 := by
    rw [List.map_replicate, List.sum_replicate]; norm_num
  have e2 : ((List.replicate 16843010 (⟨255, 255, 255⟩ : Rgb)).map Rgb.g).sum =
      4294967550 := by
    rw [List.map_replicate, List.sum_replicate]; norm_num
  have e3 : ((List.replicate 16843010 (⟨255, 255, 255⟩ : Rgb)).map Rgb.b).sum =
      4294967550 := by
    rw [List.map_replicate, List.sum_replicate]; norm_num
  have e4 : (List.replicate 16843010 (⟨255, 255, 255⟩ : Rgb)).length = 16843010 :=
    List.length_replicate 16843010 _
  refine ⟨?_, ?_, by decide⟩
  · rw [recalculate_centroids_getD _ _ _ 0 (by simp), hs, e1, e2, e3, e4]
    norm_num
  · rw [hA, e1, e4]

/-- C4: extract_palette_from_pixels fails exactly when the buffer length is not
a multiple of 4, or k = 0, or the buffer decodes to zero samples; on every
other input it succeeds. -/
theorem extract_palette_from_pixels_error_iff (e : PaletteExtractor)
    (pixels : List ℕ) (k : ℕ) :
    ((∃ msg, e.extract_palette_from_pixels pixels k = .error msg) ↔
      pixels.length % 4 ≠ 0 ∨ k = 0 ∨ rgbPixels pixels = []) ∧
    (pixels.length % 4 = 0 → k ≠ 0 → rgbPixels pixels ≠ [] →
      ∃ p, e.extract_palette_from_pixels pixels k = .ok p) := by
  constructor
  · by_cases h1 : pixels.length % 4 = 0
    · by_cases h2 : k = 0
      · simp [PaletteExtractor.extract_palette_from_pixels, h1, h2]
      · by_cases h3 : rgbPixels pixels = []
        · simp [PaletteExtractor.extract_palette_from_pixels, h1, h2, h3]
        · simp [PaletteExtractor.extract_palette_from_pixels, h1, h2, h3,
            List.isEmpty_iff]
    · simp [PaletteExtractor.extract_palette_from_pixels, h1]
  · intro h1 h2 h3
    simp [PaletteExtractor.extract_palette_from_pixels, h1, h2, h3,
      List.isEmpty_iff]

theorem extract_palette_from_pixels_error_iff_witness :
    (([9, 8, 7, 6] : List ℕ).length % 4 = 0 ∧ (1 : ℕ) ≠ 0 ∧
        rgbPixels [9, 8, 7, 6] ≠ []) ∧
      ∃ p, PaletteExtractor.new.extract_palette_from_pixels [9, 8, 7, 6] 1 = .ok p :=
  ⟨⟨by decide, by decide, by decide⟩,
    (extract_palette_from_pixels_error_iff PaletteExtractor.new [9, 8, 7, 6] 1).2
      (by decide) (by decide) (by decide)⟩

/-- C5 (amended): with at most 256 centroids (the range of the u8 index type)
and byte-bounded channel values, every sample is assigned the index of the
centroid with minimum distance, and when several centroids attain the minimum
the lowest such index is chosen (strict less-than comparison keeps the first).
(The unamended claim fails for more than 256 centroids because the chosen
index is narrowed to u8, see the counterexample.) -/
theorem get_closest_centroid_argmin (data centroids : List Rgb) (j : ℕ)
    (hk : 1 ≤ centroids.length) (hk256 : centroids.length ≤ 256)
    (hj : j < data.length)
    (hdata : ∀ s ∈ data, s.r ≤ 255 ∧ s.g ≤ 255 ∧ s.b ≤ 255)
    (hcent : ∀ c ∈ centroids, c.r ≤ 255 ∧ c.g ≤ 255 ∧ c.b ≤ 255) :
    ∃ v, (get_closest_centroid data centroids)[j]? = some v ∧
      v < centroids.length ∧
      (∀ i2, i2 < centroids.length →
        Rgb.difference (data.getD j ⟨0, 0, 0⟩) (centroids.getD v ⟨0, 0, 0⟩) ≤
          Rgb.difference (data.getD j ⟨0, 0, 0⟩) (centroids.getD i2 ⟨0, 0, 0⟩)) ∧
      (∀ i2, i2 < v →
        Rgb.difference (data.getD j ⟨0, 0, 0⟩) (centroids.getD v ⟨0, 0, 0⟩) <
          Rgb.difference (data.getD j ⟨0, 0, 0⟩) (centroids.getD i2 ⟨0, 0, 0⟩)) := by
  have hgd : data.getD j ⟨0, 0, 0⟩ = data[j] := by
    rw [List.getD_eq_getElem?_getD, List.getElem?_eq_getElem hj]
    rfl
  have hmemd : data.getD j ⟨0, 0, 0⟩ ∈ data := by
    rw [hgd]; exact List.getElem_mem hj
  have hdj : data[j]? = some (data.getD j ⟨0, 0, 0⟩) := by
    rw [List.getElem?_eq_getElem hj, hgd]
  have happ : (get_closest_centroid data centroids)[j]? =
      some ((closestIndexAux (data.getD j ⟨0, 0, 0⟩) centroids).1 % 256) := by
    rw [get_closest_centroid, List.getElem?_map, hdj]
    rfl
  have hc0 : centroids.getD 0 ⟨0, 0, 0⟩ ∈ centroids := by
    have h0 : 0 < centroids.length := by omega
    rw [List.getD_eq_getElem?_getD, List.getElem?_eq_getElem h0]
    exact List.getElem_mem h0
  rcases closestLoop_spec (data.getD j ⟨0, 0, 0⟩) centroids 0 0 minDistInit with
    ⟨h1, h2⟩ | ⟨j2, hj2, hfst, hsnd, _, hmin, hstrict⟩
  · exfalso
    have h0 := h2 0 (by omega)
    exact absurd h0
      (not_le.mpr (difference_lt_init _ _ (hdata _ hmemd) (hcent _ hc0)))
  · have hv : (closestIndexAux (data.getD j ⟨0, 0, 0⟩) centroids).1 = j2 := by
      rw [closestIndexAux, hfst]
      omega
    refine ⟨j2, ?_, by omega, ?_, ?_⟩
    · rw [happ, hv, Nat.mod_eq_of_lt (by omega)]
    · intro i2 hi2
      have h := hmin i2 hi2
      rw [hsnd] at h
      exact h
    · intro i2 hi2
      have h := hstrict i2 hi2
      rw [hsnd] at h
      exact h

theorem get_closest_centroid_argmin_witness :
    (1 ≤ ([⟨10, 10, 10⟩, ⟨0, 0, 0⟩] : List Rgb).length ∧
      ([⟨10, 10, 10⟩, ⟨0, 0, 0⟩] : List Rgb).length ≤ 256 ∧
      0 < ([⟨0, 0, 0⟩] : List Rgb).length ∧
      (∀ s ∈ ([⟨0, 0, 0⟩] : List Rgb), s.r ≤ 255 ∧ s.g ≤ 255 ∧ s.b ≤ 255) ∧
      (∀ c ∈ ([⟨10, 10, 10⟩, ⟨0, 0, 0⟩] : List Rgb),
        c.r ≤ 255 ∧ c.g ≤ 255 ∧ c.b ≤ 255)) ∧
    (∃ v, (get_closest_centroid [⟨0, 0, 0⟩] [⟨10, 10, 10⟩, ⟨0, 0, 0⟩])[0]? = some v ∧
      v < ([⟨10, 10, 10⟩, ⟨0, 0, 0⟩] : List Rgb).length ∧
      (∀ i2, i2 < ([⟨10, 10, 10⟩, ⟨0, 0, 0⟩] : List Rgb).length →
        Rgb.difference (([⟨0, 0, 0⟩] : List Rgb).getD 0 ⟨0, 0, 0⟩)
            (([⟨10, 10, 10⟩, ⟨0, 0, 0⟩] : List Rgb).getD v ⟨0, 0, 0⟩) ≤
          Rgb.difference (([⟨0, 0, 0⟩] : List Rgb).getD 0 ⟨0, 0, 0⟩)
            (([⟨10, 10, 10⟩, ⟨0, 0, 0⟩] : List Rgb).getD i2 ⟨0, 0, 0⟩)) ∧
      (∀ i2, i2 < v →
        Rgb.difference (([⟨0, 0, 0⟩] : List Rgb).getD 0 ⟨0, 0, 0⟩)
            (([⟨10, 10, 10⟩, ⟨0, 0, 0⟩] : List Rgb).getD v ⟨0, 0, 0⟩) <
          Rgb.difference (([⟨0, 0, 0⟩] : List Rgb).getD 0 ⟨0, 0, 0⟩)
            (([⟨10, 10, 10⟩, ⟨0, 0, 0⟩] : List Rgb).getD i2 ⟨0, 0, 0⟩))) :=
  ⟨⟨by decide, by decide, by decide, by decide, by decide⟩,
    get_closest_centroid_argmin [(⟨0, 0, 0⟩ : Rgb)]
      [(⟨10, 10, 10⟩ : Rgb), (⟨0, 0, 0⟩ : Rgb)] 0
      (by decide) (by decide) (by decide) (by decide) (by decide)⟩

/-- C5 counterexample: with 257 centroids the unique nearest centroid of the
single sample has index 256, but the pushed u8 assignment is 256 mod 256 = 0,
whose centroid is strictly farther away — so the assigned value is not the
index of a minimum-distance centroid. -/
theorem get_closest_centroid_truncation :
    get_closest_centroid [⟨0, 0, 0⟩]
        (List.replicate 256 (⟨255, 255, 255⟩ : Rgb) ++ [(⟨0, 0, 0⟩ : Rgb)]) = [0] ∧
      Rgb.difference ⟨0, 0, 0⟩
          ((List.replicate 256 (⟨255, 255, 255⟩ : Rgb) ++ [(⟨0, 0, 0⟩ : Rgb)]).getD 256 ⟨9, 9, 9⟩) <
        Rgb.difference ⟨0, 0, 0⟩
          ((List.replicate 256 (⟨255, 255, 255⟩ : Rgb) ++ [(⟨0, 0, 0⟩ : Rgb)]).getD 0 ⟨9, 9, 9⟩) := by
  have hlen : (List.replicate 256 (⟨255, 255, 255⟩ : Rgb) ++
      [(⟨0, 0, 0⟩ : Rgb)]).length = 257 := by
    rw [List.length_append, List.length_replicate, List.length_singleton]
  have hgd256 : ∀ d : Rgb,
      (List.replicate 256 (⟨255, 255, 255⟩ : Rgb) ++ [(⟨0, 0, 0⟩ : Rgb)]).getD 256 d =
        (⟨0, 0, 0⟩ : Rgb) := by
    intro d
    rw [List.getD_append_right _ _ _ _ (by rw [List.length_replicate]),
      List.length_replicate]
    rfl
  have hgdlt : ∀ (d : Rgb) (i : ℕ), i < 256 →
      (List.replicate 256 (⟨255, 255, 255⟩ : Rgb) ++ [(⟨0, 0, 0⟩ : Rgb)]).getD i d =
        (⟨255, 255, 255⟩ : Rgb) := by
    intro d i hi
    rw [List.getD_append _ _ _ _ (by rw [List.length_replicate]; exact hi)]
    exact getD_replicate_lt _ _ _ _ hi
  have hdZZ : Rgb.difference ⟨0, 0, 0⟩ (⟨0, 0, 0⟩ : Rgb) = 0 := by
    norm_num [Rgb.difference]
  have hdZF : Rgb.difference ⟨0, 0, 0⟩ (⟨255, 255, 255⟩ : Rgb) = 195075 := by
    norm_num [Rgb.difference]
  rcases closestLoop_spec ⟨0, 0, 0⟩
      (List.replicate 256 (⟨255, 255, 255⟩ : Rgb) ++ [(⟨0, 0, 0⟩ : Rgb)]) 0 0 minDistInit with
    ⟨h1, h2⟩ | ⟨j2, hj2, hfst, hsnd, _, hmin, hstrict⟩
  · exfalso
    have h0 := h2 256 (by rw [hlen]; omega)
    rw [hgd256, hdZZ] at h0
    have hpos : (0 : ℚ) < minDistInit := by rw [minDistInit]; norm_num
    linarith
  · rw [hlen] at hj2
    have hj256 : j2 = 256 := by
      by_contra hne
      have hjlt : j2 < 256 := by omega
      have h256 := hmin 256 (by rw [hlen]; omega)
      rw [hgd256, hdZZ] at h256
      rw [hsnd, hgdlt _ j2 hjlt, hdZF] at h256
      norm_num at h256
    constructor
    · have haux : (closestIndexAux (⟨0, 0, 0⟩ : Rgb)
          (List.replicate 256 (⟨255, 255, 255⟩ : Rgb) ++ [(⟨0, 0, 0⟩ : Rgb)])).1 = 256 := by
        rw [closestIndexAux, hfst, hj256]
      rw [get_closest_centroid, List.map_cons, List.map_nil, haux]
    · rw [hgd256, hgdlt _ 0 (by norm_num), hdZZ, hdZF]
      norm_num

/-- C6 (amended): extract_palette_from_image_data rejects exactly when the
buffer length differs from width*height*4 computed in u32 wrapping arithmetic
(width and height are u32), and otherwise returns exactly what
extract_palette_from_pixels returns on the same buffer and k.  (The unamended
claim — rejection whenever the mathematical product differs — fails when the
u32 product wraps, see the counterexample.) -/
theorem extract_palette_from_image_data_spec (e : PaletteExtractor)
    (image_data : List ℕ) (width height k : ℕ) :
    (image_data.length ≠ width * height % 2 ^ 32 * 4 % 2 ^ 32 →
      ∃ msg, e.extract_palette_from_image_data image_data width height k =
        .error msg) ∧
    (image_data.length = width * height % 2 ^ 32 * 4 % 2 ^ 32 →
      e.extract_palette_from_image_data image_data width height k =
        e.extract_palette_from_pixels image_data k) := by
  constructor
  · intro h
    simp only [PaletteExtractor.extract_palette_from_image_data]
    rw [if_pos h]
    exact ⟨_, rfl⟩
  · intro h
    simp only [PaletteExtractor.extract_palette_from_image_data]
    rw [if_neg (fun hc => hc h)]

theorem extract_palette_from_image_data_spec_witness :
    ([1, 2, 3, 4] : List ℕ).length = 1 * 1 % 2 ^ 32 * 4 % 2 ^ 32 ∧
      PaletteExtractor.new.extract_palette_from_image_data [1, 2, 3, 4] 1 1 3 =
        PaletteExtractor.new.extract_palette_from_pixels [1, 2, 3, 4] 3 :=
  ⟨by decide,
    (extract_palette_from_image_data_spec PaletteExtractor.new [1, 2, 3, 4] 1 1 3).2
      (by decide)⟩

/-- C6 counterexample: width 1073741825 = 2^30 + 1, height 1 and a 4-byte
buffer — the mathematical product 1073741825*1*4 = 2^32 + 4 differs from the
buffer length 4, yet the u32 computation wraps to 4, the dimension check
passes, and the call succeeds instead of rejecting. -/
theorem extract_palette_from_image_data_wrap :
    (∃ p, PaletteExtractor.new.extract_palette_from_image_data [255, 0, 0, 255]
        1073741825 1 1 = .ok p) ∧
      1073741825 * 1 * 4 ≠ ([255, 0, 0, 255] : List ℕ).length := by
  constructor
  · exact ⟨_, rfl⟩
  · decide

/-- C7: luminance sorting returns a permutation of the input that is
non-decreasing in the computed luminance weight (darkest first); the key
comparison is total on the NaN-free luminance values, so the sort always
succeeds. -/
theorem sort_colors_by_luminance_sorted_perm (colors : List Color) :
    (sort_colors_by_luminance colors).Perm colors ∧
      (sort_colors_by_luminance colors).Pairwise
        (fun a b => luminance a ≤ luminance b) := by
  constructor
  · have h := (List.mergeSort_perm (colors.map (fun c => (c, luminance c)))
      (fun a b => decide (a.2 ≤ b.2))).map Prod.fst
    simpa [sort_colors_by_luminance, List.map_map, Function.comp_def] using h
  · have htrans : ∀ a b c : Color × ℚ,
        decide (a.2 ≤ b.2) = true → decide (b.2 ≤ c.2) = true →
          decide (a.2 ≤ c.2) = true := by
      intro a b c hab hbc
      simp only [decide_eq_true_eq] at *
      exact le_trans hab hbc
    have htotal : ∀ a b : Color × ℚ,
        (decide (a.2 ≤ b.2) || decide (b.2 ≤ a.2)) = true := by
      intro a b
      simp only [Bool.or_eq_true, decide_eq_true_eq]
      exact le_total a.2 b.2
    have hs := List.sorted_mergeSort htrans htotal
      (colors.map (fun c => (c, luminance c)))
    have hmem : ∀ p ∈ (colors.map (fun c => (c, luminance c))).mergeSort
        (fun a b => decide (a.2 ≤ b.2)), p.2 = luminance p.1 := by
      intro p hp
      have hp2 := (List.mergeSort_perm (colors.map (fun c => (c, luminance c)))
        (fun a b => decide (a.2 ≤ b.2))).mem_iff.1 hp
      simp only [List.mem_map] at hp2
      obtain ⟨c, _, rfl⟩ := hp2
      rfl
    rw [sort_colors_by_luminance, List.pairwise_map]
    refine hs.imp_of_mem ?_
    intro a b ha hb hab
    have ha2 := hmem a ha
    have hb2 := hmem b hb
    simp only [decide_eq_true_eq] at hab
    rw [ha2, hb2] at hab
    exact hab

/-- C8: near-duplicate removal is idempotent — running remove_similar_colors a
second time with the same threshold returns its input unchanged. -/
theorem remove_similar_colors_idempotent (colors : List Color) (threshold : ℚ) :
    remove_similar_colors (remove_similar_colors colors threshold) threshold =
      remove_similar_colors colors threshold := by
  have hp : (remove_similar_colors colors threshold).Pairwise
      (fun a c => ¬ color_distance_rgb c a < threshold) :=
    foldl_dedupStep_pairwise threshold colors [] List.Pairwise.nil
  have h := foldl_dedupStep_fixed threshold
    (remove_similar_colors colors threshold) [] (by simp) hp
  simpa [remove_similar_colors] using h

/-- C9: the alpha channel is fully discarded — two equally long pixel buffers
that agree on every byte whose position is not congruent 3 mod 4 extract
identically; and every group of 4 consecutive bytes yields exactly one sample
built from its first three bytes. -/
theorem extract_palette_alpha_independent (e : PaletteExtractor) (k : ℕ)
    (p1 p2 : List ℕ) (hlen : p1.length = p2.length)
    (hagree : ∀ i, i < p1.length → i % 4 ≠ 3 → p1[i]? = p2[i]?) :
    e.extract_palette_from_pixels p1 k = e.extract_palette_from_pixels p2 k ∧
      ∀ (p : List ℕ) (j : ℕ), j < p.length / 4 →
        (rgbPixels p)[j]? =
          some ⟨p.getD (4 * j) 0, p.getD (4 * j + 1) 0, p.getD (4 * j + 2) 0⟩ := by
  refine ⟨?_, fun p j h => rgbPixels_getElem? p j h⟩
  have hrgb := rgbPixels_congr p1 p2 hlen hagree
  rw [PaletteExtractor.extract_palette_from_pixels,
    PaletteExtractor.extract_palette_from_pixels, hlen, hrgb]

theorem extract_palette_alpha_independent_witness :
    (([1, 2, 3, 4] : List ℕ).length = ([1, 2, 3, 9] : List ℕ).length ∧
      (∀ i, i < ([1, 2, 3, 4] : List ℕ).length → i % 4 ≠ 3 →
        ([1, 2, 3, 4] : List ℕ)[i]? = ([1, 2, 3, 9] : List ℕ)[i]?)) ∧
    (PaletteExtractor.new.extract_palette_from_pixels [1, 2, 3, 4] 1 =
        PaletteExtractor.new.extract_palette_from_pixels [1, 2, 3, 9] 1 ∧
      ∀ (p : List ℕ) (j : ℕ), j < p.length / 4 →
        (rgbPixels p)[j]? =
          some ⟨p.getD (4 * j) 0, p.getD (4 * j + 1) 0, p.getD (4 * j + 2) 0⟩) :=
  ⟨⟨by decide, by decide⟩,
    extract_palette_alpha_independent PaletteExtractor.new 1 [1, 2, 3, 4] [1, 2, 3, 9]
      (by decide) (by decide)⟩

/-- C10: get_color returns the i-th stored color for every index below
length() and None beyond it, get_percentage does the same over the percentage
sequence, and length() is the number of stored colors. -/
theorem palette_result_accessors_spec (p : PaletteResult) (i : ℕ) :
    p.get_color i =
        (if i < p.length then some (p.colors.getD i ⟨0, 0, 0⟩) else none) ∧
      p.get_percentage i =
        (if i < p.percentages.length then some (p.percentages.getD i 0) else none) ∧
      p.length = p.colors.length := by
  refine ⟨?_, ?_, rfl⟩
  · rw [PaletteResult.get_color]
    by_cases h : i < p.colors.length
    · simp [PaletteResult.length, h, List.getElem?_eq_getElem, List.getD]
    · have hn : p.colors[i]? = none := List.getElem?_eq_none (Nat.le_of_not_lt h)
      simp [PaletteResult.length, h, hn]
  · rw [PaletteResult.get_percentage]
    by_cases h : i < p.percentages.length
    · simp [h, List.getElem?_eq_getElem, List.getD]
    · have hn : p.percentages[i]? = none := List.getElem?_eq_none (Nat.le_of_not_lt h)
      simp [h, hn]

end Palette
